import Mathlib

/-!
Shallow embedding of the statistics / advisory / histogram engine of the
mock-uncountable repository (src/services/advisor.ts, the histogram builder
in the MeasurementRange component, and the LLM response parser in the
OptimizationAdvisor component), together with theorems settling the frozen
claims about it.

JavaScript numbers are modelled by `JsNum`: NaN, the two infinities, and
finite values represented exactly as rationals.  This abstracts the binary
rounding of IEEE doubles (every arithmetic step is exact here) but keeps the
NaN / infinity propagation rules of JavaScript, which is what the control
flow of the source depends on.  Missing record fields (`undefined` in the
source) are modelled as `Option.none` at the lookup sites.
-/

/-- Model of a JavaScript number: NaN, the infinities, or an exact finite
value. -/
inductive JsNum where
  | nan : JsNum
  | posInf : JsNum
  | negInf : JsNum
  | fin : ℚ → JsNum
  deriving DecidableEq, Repr

namespace JsNum

/-- JavaScript `Number.isNaN`. -/
def isNaNb : JsNum → Bool
  | nan => true
  | _ => false

/-- JavaScript `Number.isFinite`. -/
def isFiniteb : JsNum → Bool
  | fin _ => true
  | _ => false

/-- JavaScript `<` on numbers: false whenever either side is NaN. -/
def jsLt : JsNum → JsNum → Bool
  | nan, _ => false
  | _, nan => false
  | posInf, _ => false
  | negInf, negInf => false
  | negInf, _ => true
  | fin _, posInf => true
  | fin _, negInf => false
  | fin a, fin b => a < b

/-- JavaScript `<=` on numbers: false whenever either side is NaN. -/
def jsLe : JsNum → JsNum → Bool
  | nan, _ => false
  | _, nan => false
  | negInf, _ => true
  | _, posInf => true
  | posInf, _ => false
  | fin _, negInf => false
  | fin a, fin b => a ≤ b

/-- JavaScript `>` on numbers. -/
def jsGt (a b : JsNum) : Bool := jsLt b a

/-- JavaScript `>=` on numbers. -/
def jsGe (a b : JsNum) : Bool := jsLe b a

/-- JavaScript strict equality `===` on numbers (NaN is not equal to
itself; we do not distinguish -0 from 0, both being `fin 0`). -/
def jsEq : JsNum → JsNum → Bool
  | nan, _ => false
  | _, nan => false
  | posInf, posInf => true
  | negInf, negInf => true
  | fin a, fin b => a = b
  | _, _ => false

/-- JavaScript addition with NaN / infinity propagation. -/
def jsAdd : JsNum → JsNum → JsNum
  | nan, _ => nan
  | _, nan => nan
  | posInf, negInf => nan
  | negInf, posInf => nan
  | posInf, _ => posInf
  | _, posInf => posInf
  | negInf, _ => negInf
  | _, negInf => negInf
  | fin a, fin b => fin (a + b)

/-- JavaScript subtraction with NaN / infinity propagation. -/
def jsSub : JsNum → JsNum → JsNum
  | nan, _ => nan
  | _, nan => nan
  | posInf, posInf => nan
  | negInf, negInf => nan
  | posInf, _ => posInf
  | negInf, _ => negInf
  | fin _, posInf => negInf
  | fin _, negInf => posInf
  | fin a, fin b => fin (a - b)

/-- JavaScript multiplication: NaN propagates, and an infinity times zero
is NaN. -/
def jsMul : JsNum → JsNum → JsNum
  | nan, _ => nan
  | _, nan => nan
  | posInf, posInf => posInf
  | posInf, negInf => negInf
  | negInf, posInf => negInf
  | negInf, negInf => posInf
  | posInf, fin b => if b = 0 then nan else if 0 < b then posInf else negInf
  | negInf, fin b => if b = 0 then nan else if 0 < b then negInf else posInf
  | fin a, posInf => if a = 0 then nan else if 0 < a then posInf else negInf
  | fin a, negInf => if a = 0 then nan else if 0 < a then negInf else posInf
  | fin a, fin b => fin (a * b)

/-- JavaScript division: NaN propagates, infinity over infinity is NaN,
a finite value over an infinity is zero, and a nonzero finite value over
zero is a signed infinity (0/0 is NaN). -/
def jsDiv : JsNum → JsNum → JsNum
  | nan, _ => nan
  | _, nan => nan
  | posInf, posInf => nan
  | posInf, negInf => nan
  | negInf, posInf => nan
  | negInf, negInf => nan
  | posInf, fin b => if 0 ≤ b then posInf else negInf
  | negInf, fin b => if 0 ≤ b then negInf else posInf
  | fin _, posInf => fin 0
  | fin _, negInf => fin 0
  | fin a, fin b =>
      if b = 0 then (if a = 0 then nan else if 0 < a then posInf else negInf)
      else fin (a / b)

/-- JavaScript `Math.floor`: identity on the infinities, NaN on NaN. -/
def jsFloor : JsNum → JsNum
  | nan => nan
  | posInf => posInf
  | negInf => negInf
  | fin a => fin (Int.floor a : ℤ)

/-- JavaScript `Math.min` on two non-NaN-free arguments (NaN propagates). -/
def jsMin2 : JsNum → JsNum → JsNum
  | nan, _ => nan
  | _, nan => nan
  | negInf, _ => negInf
  | _, negInf => negInf
  | posInf, b => b
  | a, posInf => a
  | fin a, fin b => fin (min a b)

/-- JavaScript `Math.max` on two arguments (NaN propagates). -/
def jsMax2 : JsNum → JsNum → JsNum
  | nan, _ => nan
  | _, nan => nan
  | posInf, _ => posInf
  | _, posInf => posInf
  | negInf, b => b
  | a, negInf => a
  | fin a, fin b => fin (max a b)

end JsNum

/-- `Math.min(...values)` over a spread of a nonempty list.  The empty case
is unreachable at every call site of the source (guarded by emptiness
checks there); JavaScript itself would give +Infinity. -/
def jsMinList : List JsNum → JsNum
  | [] => JsNum.posInf
  | x :: xs => xs.foldl JsNum.jsMin2 x

/-- `Math.max(...values)` over a spread of a nonempty list (the empty case,
unreachable at the call sites, gives -Infinity as in JavaScript). -/
def jsMaxList : List JsNum → JsNum
  | [] => JsNum.negInf
  | x :: xs => xs.foldl JsNum.jsMax2 x

/-- Left-pad a digit string with zeros to a given width. -/
def padZeros (s : String) (f : Nat) : String :=
  String.mk (List.replicate (f - s.length) '0') ++ s

/-- JavaScript `Number.prototype.toFixed` on the exact rational model:
the sign is split off first and the magnitude is rounded to `f` decimal
digits, ties away from zero on the magnitude (this is the ECMAScript
algorithm applied to the exact value; the binary pre-rounding of doubles
is abstracted away). -/
def jsToFixed (x : JsNum) (f : Nat) : String :=
  match x with
  | JsNum.nan => "NaN"
  | JsNum.posInf => "Infinity"
  | JsNum.negInf => "-Infinity"
  | JsNum.fin q =>
    let sign := if q < 0 then "-" else ""
    let a : ℚ := |q|
    let n : Nat := (Int.floor (a * (10 : ℚ) ^ f + 1 / 2)).toNat
    if f = 0 then sign ++ toString n
    else
      sign ++ toString (n / 10 ^ f) ++ "." ++ padZeros (toString (n % 10 ^ f)) f

/-- `toFixed` applied to a finite value given directly as a rational. -/
def qToFixed (q : ℚ) (f : Nat) : String := jsToFixed (JsNum.fin q) f

/-- One experiment record: an id plus string-keyed numeric `inputs` and
`outputs` maps (modelled as association lists, first binding wins, matching
unique-keyed JavaScript objects).  A field missing from a record is a
failed lookup (`none`), matching `undefined` property access. -/
structure Experiment where
  id : String
  inputs : List (String × JsNum)
  outputs : List (String × JsNum)
  deriving DecidableEq, Repr

/-- Property access `record[field]`, `undefined` as `none`. -/
def getProp (m : List (String × JsNum)) (field : String) : Option JsNum :=
  m.lookup field

/-- FieldStats `{mean, min, max}` (all finite by construction, since
`computeStats` filters to finite values before aggregating). -/
structure Stats where
  mean : ℚ
  min : ℚ
  max : ℚ
  deriving DecidableEq, Repr

/-- The filter inside `computeStats`:
`values.filter((v) => typeof v === 'number' && Number.isFinite(v))`.
`undefined` entries fail the `typeof` test, NaN and the infinities fail
`Number.isFinite`; the survivors are exactly the finite values. -/
def validNumbers (values : List (Option JsNum)) : List ℚ :=
  values.filterMap fun v =>
    match v with
    | some (JsNum.fin q) => some q
    | _ => none

/-- `Math.min(...valid)` over a nonempty rational list (the empty case is
unreachable behind the emptiness guard in `computeStats`). -/
def listMinQ : List ℚ → ℚ
  | [] => 0
  | x :: xs => xs.foldl min x

/-- `Math.max(...valid)` over a nonempty rational list. -/
def listMaxQ : List ℚ → ℚ
  | [] => 0
  | x :: xs => xs.foldl max x

/-- `computeStats` from src/services/advisor.ts: filter to finite numeric
values, return the zero sentinel if none remain, otherwise the arithmetic
mean, minimum and maximum of the filtered values. -/
def computeStats (values : List (Option JsNum)) : Stats :=
  let valid := validNumbers values
  if valid.isEmpty then { mean := 0, min := 0, max := 0 }
  else
    { mean := valid.foldl (· + ·) 0 / (valid.length : ℚ)
      min := listMinQ valid
      max := listMaxQ valid }

/-- Whether a rule reads a record's `inputs` or its `outputs`. -/
inductive FieldKind where
  | input : FieldKind
  | output : FieldKind
  deriving DecidableEq, Repr

/-- `statsForField` from src/services/advisor.ts: project one field out of
every record (missing fields become `undefined`) and delegate to
`computeStats`. -/
def statsForField (experiments : List Experiment) (field : String)
    (kind : FieldKind) : Stats :=
  computeStats (experiments.map fun e =>
    match kind with
    | FieldKind.input => getProp e.inputs field
    | FieldKind.output => getProp e.outputs field)

/-- The `high` threshold predicate of the advisor:
`value > stats.mean * 1.15`. -/
def high (value : JsNum) (stats : Stats) : Bool :=
  JsNum.jsGt value (JsNum.fin (stats.mean * 1.15))

/-- The `low` threshold predicate of the advisor:
`value < stats.mean * 0.85`. -/
def low (value : JsNum) (stats : Stats) : Bool :=
  JsNum.jsLt value (JsNum.fin (stats.mean * 0.85))

/-- `highThreshold` helper of the advisor (used only inside the "why"
explanation strings). -/
def highThreshold (stats : Stats) : ℚ := stats.mean * 1.15

/-- `lowThreshold` helper of the advisor. -/
def lowThreshold (stats : Stats) : ℚ := stats.mean * 0.85

/-- One advisor card.  The source declares `why` optional but
`buildAdvisorSections` always sets it, so it is a plain string here. -/
structure AdvisorSection where
  id : String
  title : String
  bullets : List String
  why : String
  deriving DecidableEq, Repr

/-- Cost rule for the `Co-Agent 1` input: skipped when the anchor lacks the
field, one bullet plus one "why" line when `high` or `low` fires, nothing
otherwise.  Returns (bullets pushed, why lines pushed). -/
def coAgent1Rule (anchor : Experiment) (s : Stats) :
    List String × List String :=
  match getProp anchor.inputs "Co-Agent 1" with
  | none => ([], [])
  | some v =>
    if high v s then
      (["Co-Agent 1 is relatively high here (" ++ jsToFixed v 1 ++
          " vs dataset mean " ++ qToFixed s.mean 1 ++
          " phr). You could explore mixes that trade some of this for cheaper fillers while staying within the " ++
          qToFixed s.min 1 ++ "–" ++ qToFixed s.max 1 ++
          " phr window observed in past runs."],
       ["Co-Agent 1: value = " ++ jsToFixed v 2 ++ " phr, mean = " ++
          qToFixed s.mean 2 ++ " phr, range = " ++ qToFixed s.min 2 ++ "–" ++
          qToFixed s.max 2 ++ " phr. Rule: \"high\" if value > 1.15×mean (" ++
          qToFixed (highThreshold s) 2 ++ ")."])
    else if low v s then
      (["Co-Agent 1 is on the low side (" ++ jsToFixed v 1 ++
          " phr). If you need more performance headroom, there is room to increase up towards the historical mean " ++
          qToFixed s.mean 1 ++ " phr."],
       ["Co-Agent 1: value = " ++ jsToFixed v 2 ++ " phr, mean = " ++
          qToFixed s.mean 2 ++ " phr. Rule: \"low\" if value < 0.85×mean (" ++
          qToFixed (lowThreshold s) 2 ++ ")."])
    else ([], [])

/-- Cost rule for the `Co-Agent 2` input: only the `high` direction fires. -/
def coAgent2Rule (anchor : Experiment) (s : Stats) :
    List String × List String :=
  match getProp anchor.inputs "Co-Agent 2" with
  | none => ([], [])
  | some v =>
    if high v s then
      (["Co-Agent 2 is also high (" ++ jsToFixed v 1 ++
          " vs dataset mean " ++ qToFixed s.mean 1 ++
          " phr). Experiments that substitute some of this for cheaper filler systems may reduce cost while staying within the " ++
          qToFixed s.min 1 ++ "–" ++ qToFixed s.max 1 ++
          " phr historical band."],
       ["Co-Agent 2: value = " ++ jsToFixed v 2 ++ " phr, mean = " ++
          qToFixed s.mean 2 ++ " phr, range = " ++ qToFixed s.min 2 ++ "–" ++
          qToFixed s.max 2 ++ " phr. Rule: \"high\" if value > 1.15×mean (" ++
          qToFixed (highThreshold s) 2 ++ ")."])
    else ([], [])

/-- Cost rule for the `Carbon Black High Grade` input: only `high` fires. -/
def carbonBlackRule (anchor : Experiment) (s : Stats) :
    List String × List String :=
  match getProp anchor.inputs "Carbon Black High Grade" with
  | none => ([], [])
  | some v =>
    if high v s then
      (["Carbon Black High Grade is near the top of the historical range (" ++
          jsToFixed v 1 ++ " vs mean " ++ qToFixed s.mean 1 ++
          " phr). If cost is driving, you could search for runs that partially replace this with lower grade carbon black or silica filler while watching mechanical properties."],
       ["Carbon Black High Grade: value = " ++ jsToFixed v 2 ++
          " phr, mean = " ++ qToFixed s.mean 2 ++ " phr, range = " ++
          qToFixed s.min 2 ++ "–" ++ qToFixed s.max 2 ++
          " phr. Rule: \"high\" if value > 1.15×mean (" ++
          qToFixed (highThreshold s) 2 ++ ")."])
    else ([], [])

/-- Cure rule for the `Cure Time` output: whenever the anchor has the
field, exactly one bullet is pushed (the `high` branch or the
"acceptable" else branch). -/
def cureTimeRule (anchor : Experiment) (s : Stats) :
    List String × List String :=
  match getProp anchor.outputs "Cure Time" with
  | none => ([], [])
  | some v =>
    if high v s then
      (["Cure time (" ++ jsToFixed v 2 ++
          " min) is slower than the dataset mean (" ++ qToFixed s.mean 2 ++
          " min). You could prioritise designs with slightly higher oven temperatures or co-agent loadings that move you back towards the lower half of the observed cure-time window."],
       ["Cure Time: value = " ++ jsToFixed v 2 ++ " min, mean = " ++
          qToFixed s.mean 2 ++ " min. Rule: \"slow\" if value > 1.15×mean (" ++
          qToFixed (highThreshold s) 2 ++ ")."])
    else
      (["Cure time (" ++ jsToFixed v 2 ++
          " min) is already at or better than the dataset mean (" ++
          qToFixed s.mean 2 ++
          " min). This run can act as a reference when optimising cost without sacrificing turn-around."],
       ["Cure Time: value = " ++ jsToFixed v 2 ++ " min, mean = " ++
          qToFixed s.mean 2 ++
          " min. Rule: considered \"acceptable\" if within ±15% of mean."])

/-- Cure rule for the `Oven Temperature` input: whenever the anchor has the
field, exactly one bullet is pushed (`high` branch or "moderate" else
branch). -/
def ovenRule (anchor : Experiment) (s : Stats) :
    List String × List String :=
  match getProp anchor.inputs "Oven Temperature" with
  | none => ([], [])
  | some v =>
    if high v s then
      (["Oven temperature is at the upper part of the historical range (" ++
          jsToFixed v 0 ++ " °F vs " ++ qToFixed s.min 0 ++ "–" ++
          qToFixed s.max 0 ++
          " °F). If energy usage is a concern, you could explore nearby recipes that operate slightly cooler while confirming they preserve cure time and performance."],
       ["Oven Temperature: value = " ++ jsToFixed v 0 ++ " °F, range = " ++
          qToFixed s.min 0 ++ "–" ++ qToFixed s.max 0 ++
          " °F. Rule: \"high\" if value > 1.15×mean (" ++
          qToFixed (highThreshold s) 0 ++ ")."])
    else
      (["Oven temperature is moderate (" ++ jsToFixed v 0 ++
          " °F). There may be room to push temperature up slightly for faster cure when cycle-time pressure is high."],
       ["Oven Temperature: value = " ++ jsToFixed v 0 ++ " °F, mean = " ++
          qToFixed s.mean 0 ++
          " °F. Rule: considered \"moderate\" if within historical min–max."])

/-- Field-performance rule for the `Compression Set` output: whenever the
anchor has the field, exactly one bullet is pushed (`value ≤ mean`
favourable branch or the high else branch). -/
def compressionRule (anchor : Experiment) (s : Stats) :
    List String × List String :=
  match getProp anchor.outputs "Compression Set" with
  | none => ([], [])
  | some v =>
    if JsNum.jsLe v (JsNum.fin s.mean) then
      (["Compression set (" ++ jsToFixed v 1 ++
          " %) is at or below the dataset mean (" ++ qToFixed s.mean 1 ++
          " %), which is favourable for long-term sealing and lower scrap risk."],
       ["Compression Set: value = " ++ jsToFixed v 1 ++ " %, mean = " ++
          qToFixed s.mean 1 ++ " %. Rule: \"favourable\" if value ≤ mean."])
    else
      (["Compression set (" ++ jsToFixed v 1 ++
          " %) is higher than typical (mean " ++ qToFixed s.mean 1 ++
          " %). When changing formulation, you may want to bias towards regions where compression set trends lower, even if it costs a small amount of elongation."],
       ["Compression Set: value = " ++ jsToFixed v 1 ++ " %, mean = " ++
          qToFixed s.mean 1 ++ " %. Rule: \"high\" if value > mean."])

/-- Field-performance rule for the `Elongation` output: a bullet in the
`high` and `low` directions, nothing in the neutral middle. -/
def elongationRule (anchor : Experiment) (s : Stats) :
    List String × List String :=
  match getProp anchor.outputs "Elongation" with
  | none => ([], [])
  | some v =>
    if high v s then
      (["Elongation (" ++ jsToFixed v 1 ++
          " %) is in the upper half of the dataset (mean " ++
          qToFixed s.mean 1 ++
          " %). That gives some headroom to trade a little elongation for cost or compression-set improvements."],
       ["Elongation: value = " ++ jsToFixed v 1 ++ " %, mean = " ++
          qToFixed s.mean 1 ++ " %. Rule: \"high\" if value > 1.15×mean (" ++
          qToFixed (highThreshold s) 1 ++ ")."])
    else if low v s then
      (["Elongation (" ++ jsToFixed v 1 ++
          " %) is lower than typical. When pushing cost down, it will be important to watch this metric so it does not erode further."],
       ["Elongation: value = " ++ jsToFixed v 1 ++ " %, mean = " ++
          qToFixed s.mean 1 ++ " %. Rule: \"low\" if value < 0.85×mean (" ++
          qToFixed (lowThreshold s) 1 ++ ")."])
    else ([], [])

/-- `buildAdvisorSections` from src/services/advisor.ts.  The imperative
array pushes are modelled by concatenating each rule's contribution in
source order; the cost and field categories append a fixed neutral
fallback bullet when no rule fired, the cure category has no such
fallback in the source. -/
def buildAdvisorSections (anchor : Experiment)
    (allExperiments : List Experiment) : List AdvisorSection :=
  let coAgent1Stats := statsForField allExperiments "Co-Agent 1" FieldKind.input
  let coAgent2Stats := statsForField allExperiments "Co-Agent 2" FieldKind.input
  let carbonBlackHighStats :=
    statsForField allExperiments "Carbon Black High Grade" FieldKind.input
  let ovenStats := statsForField allExperiments "Oven Temperature" FieldKind.input
  let cureTimeStats := statsForField allExperiments "Cure Time" FieldKind.output
  let compressionStats :=
    statsForField allExperiments "Compression Set" FieldKind.output
  let elongationStats := statsForField allExperiments "Elongation" FieldKind.output
  let r1 := coAgent1Rule anchor coAgent1Stats
  let r2 := coAgent2Rule anchor coAgent2Stats
  let r3 := carbonBlackRule anchor carbonBlackHighStats
  let bulletsCost0 := r1.1 ++ r2.1 ++ r3.1
  let whyCost0 := r1.2 ++ r2.2 ++ r3.2
  let bulletsCost :=
    if bulletsCost0.isEmpty then
      bulletsCost0 ++
        ["The current run sits close to typical loadings for the main co-agents and fillers. Cost levers are likely to come from incremental filler substitutions rather than large stoichiometric changes."]
    else bulletsCost0
  let whyCostLines :=
    if bulletsCost0.isEmpty then
      whyCost0 ++
        ["No major cost outliers detected for the tracked co-agents and fillers (all within ±15% of historical means)."]
    else whyCost0
  let r4 := cureTimeRule anchor cureTimeStats
  let r5 := ovenRule anchor ovenStats
  let bulletsCure := r4.1 ++ r5.1
  let whyCureLines := r4.2 ++ r5.2
  let r6 := compressionRule anchor compressionStats
  let r7 := elongationRule anchor elongationStats
  let bulletsField0 := r6.1 ++ r7.1
  let whyField0 := r6.2 ++ r7.2
  let bulletsField :=
    if bulletsField0.isEmpty then
      bulletsField0 ++
        ["Mechanical performance sits near the centre of the historical cloud. Future trials can explore small movements along the cost / cure-time axes while monitoring compression set and elongation."]
    else bulletsField0
  let whyFieldLines :=
    if bulletsField0.isEmpty then
      whyField0 ++
        ["No major performance outliers detected for Compression Set or Elongation (both within ±15% of historical means)."]
    else whyField0
  [ { id := "cost", title := "Cost levers", bullets := bulletsCost,
      why := String.intercalate "\n" whyCostLines },
    { id := "cure", title := "Cure time & oven utilisation", bullets := bulletsCure,
      why := String.intercalate "\n" whyCureLines },
    { id := "field", title := "Field performance & scrap", bullets := bulletsField,
      why := String.intercalate "\n" whyFieldLines } ]

/-- One histogram bar, as in the MeasurementRange component.  The count
starts at 0 and is only ever incremented, so it is a natural number. -/
structure HistogramBin where
  binLabel : String
  count : Nat
  deriving DecidableEq, Repr

/-- Result shape of `buildHistogramData`. -/
structure HistogramResult where
  bins : List HistogramBin
  matchingCount : Nat
  deriving DecidableEq, Repr

/-- The filter at the top of `buildHistogramData`: experiments whose chosen
output is present, not NaN, and inside `[minOut, maxOut]`.  Note the source
tests `!Number.isNaN(outVal)`, not `Number.isFinite`, so infinite output
values can match. -/
def matchingExperiments (experiments : List Experiment) (outputKey : String)
    (minOut maxOut : JsNum) : List Experiment :=
  experiments.filter fun exp =>
    match getProp exp.outputs outputKey with
    | none => false
    | some outVal =>
      !JsNum.isNaNb outVal && JsNum.jsGe outVal minOut && JsNum.jsLe outVal maxOut

/-- The `values` array collected by `buildHistogramData`: the chosen input
of each matching experiment, when present and not NaN (again `!isNaN`, so
infinite input values are collected too). -/
def collectedValues (experiments : List Experiment) (inputKey outputKey : String)
    (minOut maxOut : JsNum) : List JsNum :=
  (matchingExperiments experiments outputKey minOut maxOut).filterMap fun exp =>
    match getProp exp.inputs inputKey with
    | none => none
    | some v => if JsNum.isNaNb v then none else some v

/-- The statement `rawBins[index].count += 1`.  JavaScript array indexing
with anything other than an integer inside bounds yields `undefined`, and
`undefined.count += 1` throws a TypeError; that failure is the `error`
branch here. -/
def incrementBin (bins : List HistogramBin) (index : JsNum) :
    Except String (List HistogramBin) :=
  match index with
  | JsNum.fin q =>
    if q.den = 1 ∧ 0 ≤ q.num then
      match bins.get? q.num.toNat with
      | some b => Except.ok (bins.set q.num.toNat ⟨b.binLabel, b.count + 1⟩)
      | none => Except.error "TypeError: rawBins[index] is undefined"
    else Except.error "TypeError: rawBins[index] is undefined"
  | _ => Except.error "TypeError: rawBins[index] is undefined"

/-- `buildHistogramData` from the MeasurementRange component.  The ambient
module-level `experiments` constant is passed explicitly.  The function is
in `Except` because the bin-assignment loop can throw (see
`incrementBin`); every other path returns `ok`. -/
def buildHistogramData (experiments : List Experiment)
    (inputKey outputKey : String) (minOut maxOut : JsNum)
    (binCount : ℤ := 6) : Except String HistogramResult :=
  let filtered := matchingExperiments experiments outputKey minOut maxOut
  let matchingCount := filtered.length
  if matchingCount = 0 then Except.ok ⟨[], 0⟩
  else
    let values := collectedValues experiments inputKey outputKey minOut maxOut
    if values.isEmpty then Except.ok ⟨[], matchingCount⟩
    else
      let minVal := jsMinList values
      let maxVal := jsMaxList values
      if JsNum.jsEq minVal maxVal then
        Except.ok ⟨[⟨jsToFixed minVal 2, values.length⟩], matchingCount⟩
      else
        let step := JsNum.jsDiv (JsNum.jsSub maxVal minVal) (JsNum.fin (binCount : ℚ))
        let rawBins := (List.range binCount.toNat).map fun (i : Nat) =>
          let start := JsNum.jsAdd minVal (JsNum.jsMul (JsNum.fin (i : ℚ)) step)
          let stop := if (i : ℤ) = binCount - 1 then maxVal
                      else JsNum.jsAdd start step
          (⟨jsToFixed start 1 ++ "–" ++ jsToFixed stop 1, 0⟩ : HistogramBin)
        (values.foldlM (fun bins v =>
          let index0 := JsNum.jsFloor (JsNum.jsDiv (JsNum.jsSub v minVal) step)
          let index :=
            if JsNum.jsGe index0 (JsNum.fin (binCount : ℚ)) then
              JsNum.fin ((binCount - 1 : ℤ) : ℚ)
            else index0
          incrementBin bins index) rawBins).map
        fun bins => ⟨bins, matchingCount⟩

/-- Whether an `Except` computation finished without throwing. -/
def exceptIsOk {α : Type} (e : Except String α) : Bool :=
  match e with
  | Except.ok _ => true
  | Except.error _ => false

/-- Character class of the JavaScript `\s` regex escape and of
`String.prototype.trim`, restricted to the ASCII whitespace the parser can
meet here. -/
def isJsWhitespace (c : Char) : Bool :=
  c = ' ' || c = '\t' || c = '\n' || c = '\r' || c = '\x0b' || c = '\x0c'

/-- Drop leading whitespace: the `\s*` tail of the header regexes. -/
def dropLeadingWs (cs : List Char) : List Char :=
  cs.dropWhile isJsWhitespace

/-- JavaScript `String.prototype.trim` on the character-list model. -/
def jsTrimChars (cs : List Char) : List Char :=
  ((cs.dropWhile isJsWhitespace).reverse.dropWhile isJsWhitespace).reverse

/-- `trimmed.replace(/^###\s*/, '')`: strip one leading `###` marker and
the whitespace after it, if present. -/
def stripLeadingHeader (cs : List Char) : List Char :=
  match cs with
  | '#' :: '#' :: '#' :: rest => dropLeadingWs rest
  | _ => cs

/-- Recursion core of the header split, structurally recursive on a fuel
argument so that it evaluates by kernel reduction.  The fuel is the length
of the text; every step consumes at least one character (the separator
case at least four), so the zero-fuel guard is never reached from
`splitOnHeaderMarks`. -/
def splitOnHeaderMarksAux : Nat → List Char → List (List Char)
  | _, [] => [[]]
  | 0, cs => [cs]
  | fuel + 1, '\n' :: '#' :: '#' :: '#' :: rest =>
    [] :: splitOnHeaderMarksAux fuel (dropLeadingWs rest)
  | fuel + 1, c :: rest =>
    match splitOnHeaderMarksAux fuel rest with
    | [] => [[c]]
    | b :: bs => (c :: b) :: bs

/-- `normalised.split(/\n###\s*/)`: cut the text at every newline that is
immediately followed by `###`, consuming the marker and the whitespace
after it (greedy `\s*`, exactly as the regex engine scans left to right). -/
def splitOnHeaderMarks (cs : List Char) : List (List Char) :=
  splitOnHeaderMarksAux cs.length cs

/-- `line.replace(/^\d+\.\s*/, '')`: strip a leading numbered-list marker
(one or more digits, a dot, trailing whitespace) when the line starts with
one, otherwise leave the line unchanged. -/
def stripListMarker (cs : List Char) : List Char :=
  let ds := cs.takeWhile Char.isDigit
  if ds.isEmpty then cs
  else
    match cs.dropWhile Char.isDigit with
    | '.' :: rest => dropLeadingWs rest
    | _ => cs

/-- The cleaning applied to each candidate bullet line:
`line.replace(/^\d+\.\s*/, '').trim()`. -/
def cleanBulletLine (line : List Char) : List Char :=
  jsTrimChars (stripListMarker line)

/-- One parsed LLM section `{title, bullets}`. -/
structure LlmSection where
  title : String
  bullets : List String
  deriving DecidableEq, Repr

/-- The bullet-collecting loop over the body lines of one block: skip blank
lines, strip list markers, keep nonempty results. -/
def blockBullets (body : List (List Char)) : List (List Char) :=
  body.foldl (fun bs line =>
    if line.isEmpty then bs
    else
      let cleaned := cleanBulletLine line
      if cleaned.isEmpty then bs else bs ++ [cleaned]) []

/-- Processing of one raw block of `parseLlmSections`: trim each line,
skip the block when its first line is blank, otherwise collect bullets,
falling back to the space-joined body when no line yielded a bullet but
the body text is nonempty. -/
def processBlock (raw : List Char) : Option (List Char × List (List Char)) :=
  match (raw.splitOn '\n').map jsTrimChars with
  | [] => none
  | first :: body =>
    if first.isEmpty then none
    else
      let bullets := blockBullets body
      let joined := jsTrimChars (List.intercalate [' '] body)
      let bullets :=
        if bullets.isEmpty && !joined.isEmpty then [joined] else bullets
      some (first, bullets)

/-- `parseLlmSections` from the OptimizationAdvisor component: trim the
input, return no sections when empty, otherwise split into header blocks
and process each, skipping blocks with a blank first line. -/
def parseLlmSections (text : String) : List LlmSection :=
  let trimmed := jsTrimChars text.data
  if trimmed.isEmpty then []
  else
    ((splitOnHeaderMarks (stripLeadingHeader trimmed)).filterMap processBlock).map
      fun p => { title := String.mk p.1, bullets := p.2.map String.mk }

/-- Total count over a bin list, the quantity of the histogram sum
invariant. -/
def binsSum (bins : List HistogramBin) : Nat :=
  (bins.map HistogramBin.count).sum

/-!  Helper lemmas about the nonempty-spread minimum and maximum. -/

theorem listMinQ_cons_cons (x y : ℚ) (l : List ℚ) :
    listMinQ (x :: y :: l) = listMinQ (min x y :: l) := rfl

theorem listMaxQ_cons_cons (x y : ℚ) (l : List ℚ) :
    listMaxQ (x :: y :: l) = listMaxQ (max x y :: l) := rfl

theorem listMinQ_le_head (x : ℚ) (l : List ℚ) : listMinQ (x :: l) ≤ x := by
  induction l generalizing x with
  | nil => simp [listMinQ]
  | cons y ys ih =>
    rw [listMinQ_cons_cons]
    exact le_trans (ih (min x y)) (min_le_left x y)

theorem le_listMaxQ_head (x : ℚ) (l : List ℚ) : x ≤ listMaxQ (x :: l) := by
  induction l generalizing x with
  | nil => simp [listMaxQ]
  | cons y ys ih =>
    rw [listMaxQ_cons_cons]
    exact le_trans (le_max_left x y) (ih (max x y))

theorem listMinQ_le_mem (x : ℚ) (l : List ℚ) :
    ∀ y ∈ x :: l, listMinQ (x :: l) ≤ y := by
  induction l generalizing x with
  | nil =>
    intro y hy
    rcases List.mem_singleton.mp hy with h
    subst h; simp [listMinQ]
  | cons z zs ih =>
    intro y hy
    rw [listMinQ_cons_cons]
    rcases List.mem_cons.mp hy with h | hy2
    · subst h; exact le_trans (listMinQ_le_head _ _) (min_le_left _ _)
    rcases List.mem_cons.mp hy2 with h | h
    · subst h; exact le_trans (listMinQ_le_head _ _) (min_le_right _ _)
    · exact ih (min x z) y (List.mem_cons_of_mem _ h)

theorem mem_le_listMaxQ (x : ℚ) (l : List ℚ) :
    ∀ y ∈ x :: l, y ≤ listMaxQ (x :: l) := by
  induction l generalizing x with
  | nil =>
    intro y hy
    rcases List.mem_singleton.mp hy with h
    subst h; simp [listMaxQ]
  | cons z zs ih =>
    intro y hy
    rw [listMaxQ_cons_cons]
    rcases List.mem_cons.mp hy with h | hy2
    · subst h; exact le_trans (le_max_left _ _) (le_listMaxQ_head _ _)
    rcases List.mem_cons.mp hy2 with h | h
    · subst h; exact le_trans (le_max_right _ _) (le_listMaxQ_head _ _)
    · exact ih (max x z) y (List.mem_cons_of_mem _ h)

theorem listMinQ_mem (x : ℚ) (l : List ℚ) : listMinQ (x :: l) ∈ x :: l := by
  induction l generalizing x with
  | nil => simp [listMinQ]
  | cons z zs ih =>
    rw [listMinQ_cons_cons]
    rcases List.mem_cons.mp (ih (min x z)) with h | h
    · rcases min_choice x z with hc | hc
      · rw [h, hc]; exact List.mem_cons_self _ _
      · rw [h, hc]; exact List.mem_cons_of_mem _ (List.mem_cons_self _ _)
    · exact List.mem_cons_of_mem _ (List.mem_cons_of_mem _ h)

theorem listMaxQ_mem (x : ℚ) (l : List ℚ) : listMaxQ (x :: l) ∈ x :: l := by
  induction l generalizing x with
  | nil => simp [listMaxQ]
  | cons z zs ih =>
    rw [listMaxQ_cons_cons]
    rcases List.mem_cons.mp (ih (max x z)) with h | h
    · rcases max_choice x z with hc | hc
      · rw [h, hc]; exact List.mem_cons_self _ _
      · rw [h, hc]; exact List.mem_cons_of_mem _ (List.mem_cons_self _ _)
    · exact List.mem_cons_of_mem _ (List.mem_cons_of_mem _ h)

/-- The reduce-based mean numerator of `computeStats` is the list sum. -/
theorem foldl_add_eq_sum (l : List ℚ) : l.foldl (· + ·) 0 = l.sum :=
  List.sum_eq_foldl.symm

theorem validNumbers_map_fin (qs : List ℚ) :
    validNumbers (qs.map fun q => some (JsNum.fin q)) = qs := by
  induction qs with
  | nil => rfl
  | cons q qs ih => simpa [validNumbers, List.filterMap_cons] using ih

/-- Claim C4: the `high` and `low` predicates are mutually exclusive for
positive dataset mean, and the `high` comparison is strict: at exactly
1.15 times the mean it is false, while any value above the threshold
(such as 1.1500001 times the mean) makes it true. -/
theorem high_low_exclusive_and_strict_boundary :
    (∀ (v : JsNum) (s : Stats), 0 < s.mean →
      ¬(high v s = true ∧ low v s = true)) ∧
    (∀ s : Stats, 0 < s.mean →
      high (JsNum.fin (1.15 * s.mean)) s = false ∧
      high (JsNum.fin (1.1500001 * s.mean)) s = true) := by
  constructor
  · intro v s hs
    rintro ⟨hhigh, hlow⟩
    cases v with
    | nan => simp [high, JsNum.jsGt, JsNum.jsLt] at hhigh
    | posInf => simp [low, JsNum.jsLt] at hlow
    | negInf => simp [high, JsNum.jsGt, JsNum.jsLt] at hhigh
    | fin q =>
      simp only [high, low, JsNum.jsGt, JsNum.jsLt, decide_eq_true_eq] at hhigh hlow
      nlinarith
  · intro s hs
    constructor
    · simp only [high, JsNum.jsGt, JsNum.jsLt, decide_eq_false_iff_not, not_lt]
      nlinarith
    · simp only [high, JsNum.jsGt, JsNum.jsLt, decide_eq_true_eq]
      nlinarith

/-- Witness for C4 at the concrete stats `{mean := 1, min := 1, max := 2}`
and the value 2. -/
theorem high_low_exclusive_and_strict_boundary_witness :
    (¬(high (JsNum.fin 2) ⟨1, 1, 2⟩ = true ∧ low (JsNum.fin 2) ⟨1, 1, 2⟩ = true)) ∧
    (high (JsNum.fin (1.15 * (1 : ℚ))) ⟨1, 1, 2⟩ = false ∧
      high (JsNum.fin (1.1500001 * (1 : ℚ))) ⟨1, 1, 2⟩ = true) :=
  ⟨high_low_exclusive_and_strict_boundary.1 (JsNum.fin 2) ⟨1, 1, 2⟩ (by norm_num),
   high_low_exclusive_and_strict_boundary.2 ⟨1, 1, 2⟩ (by norm_num)⟩

/-- Claim C5: `computeStats` filters to finite values; with none remaining
it returns the `{0,0,0}` sentinel (in particular on `[]`), on `[NaN, 5]`
it returns `{5,5,5}`, and in general on a nonempty filtered list its mean
times the count is the sum of the filtered values and its min and max are
attained bounds of the filtered values. -/
theorem computeStats_filters_and_aggregates :
    computeStats [] = { mean := 0, min := 0, max := 0 } ∧
    computeStats [some JsNum.nan, some (JsNum.fin 5)] =
      { mean := 5, min := 5, max := 5 } ∧
    (∀ values : List (Option JsNum), validNumbers values = [] →
      computeStats values = { mean := 0, min := 0, max := 0 }) ∧
    (∀ values : List (Option JsNum), validNumbers values ≠ [] →
      (computeStats values).mean * ((validNumbers values).length : ℚ) =
          (validNumbers values).sum ∧
      (computeStats values).min ∈ validNumbers values ∧
      (∀ y ∈ validNumbers values, (computeStats values).min ≤ y) ∧
      (computeStats values).max ∈ validNumbers values ∧
      (∀ y ∈ validNumbers values, y ≤ (computeStats values).max)) := by
  refine ⟨rfl, ?_, ?_, ?_⟩
  · simp only [computeStats, validNumbers, List.filterMap_cons, List.filterMap_nil]
    norm_num [listMinQ, listMaxQ]
  · intro values h
    simp [computeStats, h]
  · intro values h
    rcases hv : validNumbers values with _ | ⟨x, xs⟩
    · exact absurd hv h
    have hlen : (0 : ℚ) < ((x :: xs).length : ℚ) := by
      rw [List.length_cons]
      push_cast
      positivity
    constructor
    · simp only [computeStats, hv, List.isEmpty_cons, Bool.false_eq_true,
        if_false]
      rw [foldl_add_eq_sum, div_mul_cancel₀]
      exact ne_of_gt hlen
    refine ⟨?_, ?_, ?_, ?_⟩
    · simpa [computeStats, hv] using listMinQ_mem x xs
    · intro y hy
      simpa [computeStats, hv] using listMinQ_le_mem x xs y (hv ▸ hy)
    · simpa [computeStats, hv] using listMaxQ_mem x xs
    · intro y hy
      simpa [computeStats, hv] using mem_le_listMaxQ x xs y (hv ▸ hy)

/-- Witness for C5 at the concrete list `[undefined, NaN, 3, 7]`. -/
theorem computeStats_filters_and_aggregates_witness :
    computeStats [none, some JsNum.nan, some (JsNum.fin 3), some (JsNum.fin 7)]
        = { mean := 5, min := 3, max := 7 } ∧
    validNumbers [none, some JsNum.nan, some (JsNum.fin 3), some (JsNum.fin 7)]
        ≠ [] ∧
    (computeStats [none, some JsNum.nan, some (JsNum.fin 3), some (JsNum.fin 7)]).mean *
        ((validNumbers [none, some JsNum.nan, some (JsNum.fin 3),
          some (JsNum.fin 7)]).length : ℚ) =
      (validNumbers [none, some JsNum.nan, some (JsNum.fin 3),
        some (JsNum.fin 7)]).sum := by
  refine ⟨?_, by decide, ?_⟩
  · simp only [computeStats, validNumbers, List.filterMap_cons, List.filterMap_nil]
    norm_num [listMinQ, listMaxQ]
  · exact (computeStats_filters_and_aggregates.2.2.2 _ (by decide)).1

/-- Claim C7: for every anchor and dataset, `buildAdvisorSections` returns
exactly three sections whose ids are `cost`, `cure`, `field` in that fixed
order. -/
theorem buildAdvisorSections_ids_fixed :
    ∀ (anchor : Experiment) (allExperiments : List Experiment),
      (buildAdvisorSections anchor allExperiments).map AdvisorSection.id =
          ["cost", "cure", "field"] ∧
      (buildAdvisorSections anchor allExperiments).length = 3 :=
  fun _ _ => ⟨rfl, rfl⟩

/-- Claim C8: on a nonempty list of finite values, the stats returned by
`computeStats` satisfy `min ≤ mean` and `mean ≤ max`. -/
theorem computeStats_min_le_mean_le_max :
    ∀ qs : List ℚ, qs ≠ [] →
      (computeStats (qs.map fun q => some (JsNum.fin q))).min ≤
          (computeStats (qs.map fun q => some (JsNum.fin q))).mean ∧
      (computeStats (qs.map fun q => some (JsNum.fin q))).mean ≤
          (computeStats (qs.map fun q => some (JsNum.fin q))).max := by
  intro qs hqs
  rcases qs with _ | ⟨x, xs⟩
  · exact absurd rfl hqs
  have hvalid : validNumbers ((x :: xs).map fun q => some (JsNum.fin q)) = x :: xs :=
    validNumbers_map_fin (x :: xs)
  have hlen : (0 : ℚ) < (((x :: xs) : List ℚ).length : ℚ) := by
    rw [List.length_cons]
    push_cast
    positivity
  have hmin : ((x :: xs).length : ℚ) * listMinQ (x :: xs) ≤ (x :: xs).sum := by
    have := List.card_nsmul_le_sum (x :: xs) (listMinQ (x :: xs))
      (listMinQ_le_mem x xs)
    simpa [nsmul_eq_mul] using this
  have hmax : (x :: xs).sum ≤ ((x :: xs).length : ℚ) * listMaxQ (x :: xs) := by
    have := List.sum_le_card_nsmul (x :: xs) (listMaxQ (x :: xs))
      (mem_le_listMaxQ x xs)
    simpa [nsmul_eq_mul] using this
  constructor
  · simp only [computeStats, hvalid, List.isEmpty_cons, Bool.false_eq_true,
      if_false]
    rw [foldl_add_eq_sum, le_div_iff₀ hlen]
    linarith
  · simp only [computeStats, hvalid, List.isEmpty_cons, Bool.false_eq_true,
      if_false]
    rw [foldl_add_eq_sum, div_le_iff₀ hlen]
    linarith

/-- Witness for C8 at the concrete list `[3, 1, 2]`. -/
theorem computeStats_min_le_mean_le_max_witness :
    (computeStats ([3, 1, 2].map fun (q : ℚ) => some (JsNum.fin q))).min ≤
        (computeStats ([3, 1, 2].map fun (q : ℚ) => some (JsNum.fin q))).mean ∧
      (computeStats ([3, 1, 2].map fun (q : ℚ) => some (JsNum.fin q))).mean ≤
        (computeStats ([3, 1, 2].map fun (q : ℚ) => some (JsNum.fin q))).max :=
  computeStats_min_le_mean_le_max [3, 1, 2] (by decide)

/-!  Per-rule emptiness characterizations used for claim C1. -/

theorem list_isEmpty_append {α : Type} (l1 l2 : List α) :
    (l1 ++ l2).isEmpty = (l1.isEmpty && l2.isEmpty) := by
  cases l1 <;> cases l2 <;> simp

/-- The cure-time rule contributes a bullet exactly when the anchor has the
`Cure Time` output (both branches of its conditional push one). -/
theorem cureTimeRule_isEmpty (anchor : Experiment) (s : Stats) :
    (cureTimeRule anchor s).1.isEmpty =
      decide (getProp anchor.outputs "Cure Time" = none) := by
  rcases h : getProp anchor.outputs "Cure Time" with _ | v <;>
    simp only [cureTimeRule, h] <;> [skip; split] <;> simp

/-- The oven-temperature rule contributes a bullet exactly when the anchor
has the `Oven Temperature` input. -/
theorem ovenRule_isEmpty (anchor : Experiment) (s : Stats) :
    (ovenRule anchor s).1.isEmpty =
      decide (getProp anchor.inputs "Oven Temperature" = none) := by
  rcases h : getProp anchor.inputs "Oven Temperature" with _ | v <;>
    simp only [ovenRule, h] <;> [skip; split] <;> simp

/-- Counterexample to claim C1 as stated: for an anchor record with none of
the recognized fields, the cure section comes back with zero bullets (the
source has fallback bullets only for the cost and field categories), so not
every section has at least one bullet. -/
theorem advisor_cure_section_empty_counterexample :
    ((buildAdvisorSections { id := "anchor-empty", inputs := [], outputs := [] }
        [{ id := "anchor-empty", inputs := [], outputs := [] }]).map
      fun s => s.bullets.length) = [1, 0, 1] := rfl

/-- Claim C1, amended: the cost and field sections always carry at least
one bullet (a neutral fallback is substituted when no rule fires), while
the cure section is empty exactly when the anchor lacks both the
`Cure Time` output and the `Oven Temperature` input; when either field is
present the cure section also has at least one bullet. -/
theorem advisor_sections_bullets_nonempty_amended :
    ∀ (anchor : Experiment) (allExperiments : List Experiment),
      ((buildAdvisorSections anchor allExperiments).map
          fun s => s.bullets.isEmpty) =
        [false,
         decide (getProp anchor.outputs "Cure Time" = none) &&
           decide (getProp anchor.inputs "Oven Temperature" = none),
         false] := by
  intro anchor allExperiments
  simp only [buildAdvisorSections, List.map_cons, List.map_nil]
  refine congrArg₂ _ ?_ (congrArg₂ _ ?_ (congrArg₂ _ ?_ rfl))
  · dsimp only
    split
    · simp
    · simp_all
  · dsimp only
    rw [list_isEmpty_append, cureTimeRule_isEmpty, ovenRule_isEmpty]
  · dsimp only
    split
    · simp
    · simp_all

/-!  Helper lemmas for the histogram claims. -/

theorem isFiniteb_iff (v : JsNum) :
    JsNum.isFiniteb v = true ↔ ∃ q, v = JsNum.fin q := by
  cases v <;> simp [JsNum.isFiniteb]

theorem except_bind_ok {α β : Type} (a : α) (g : α → Except String β) :
    (Except.ok a >>= g) = g a := rfl

theorem except_bind_err {α β : Type} (e : String) (g : α → Except String β) :
    ((Except.error e : Except String α) >>= g) = Except.error e := rfl

theorem exceptIsOk_map {α β : Type} (f : α → β) (e : Except String α) :
    exceptIsOk (Except.map f e) = exceptIsOk e := by
  cases e <;> rfl

theorem exceptIsOk_eq_true_of_ex {α : Type} {e : Except String α}
    (h : ∃ a, e = Except.ok a) : exceptIsOk e = true := by
  obtain ⟨a, rfl⟩ := h
  rfl

theorem except_map_ok {α β : Type} (g : α → β) (e : Except String α) (r : β)
    (h : Except.map g e = Except.ok r) : ∃ a, e = Except.ok a ∧ r = g a := by
  cases e with
  | error s => simp [Except.map] at h
  | ok a => exact ⟨a, rfl, (Except.ok.inj h).symm⟩

theorem binsSum_nil : binsSum [] = 0 := rfl

theorem binsSum_cons (b : HistogramBin) (l : List HistogramBin) :
    binsSum (b :: l) = b.count + binsSum l := by
  simp [binsSum]

theorem binsSum_map_zero {α : Type} (l : List α) (g : α → String) :
    binsSum (l.map fun a => (⟨g a, 0⟩ : HistogramBin)) = 0 := by
  induction l with
  | nil => rfl
  | cons x xs ih => simpa [binsSum_cons] using ih

theorem binsSum_set (bins : List HistogramBin) (i : ℕ) (bb : HistogramBin)
    (lbl : String) (h : bins.get? i = some bb) :
    binsSum (bins.set i ⟨lbl, bb.count + 1⟩) = binsSum bins + 1 := by
  induction bins generalizing i with
  | nil => simp at h
  | cons x xs ih =>
    cases i with
    | zero =>
      obtain rfl : x = bb := by simpa using h
      simp only [List.set]
      rw [binsSum_cons, binsSum_cons]
      dsimp only
      omega
    | succ n =>
      simp only [List.get?_cons_succ] at h
      simp only [List.set]
      rw [binsSum_cons, binsSum_cons, ih n h]
      omega

/-- A successful bin increment raises the total count by one and keeps the
number of bins. -/
theorem incrementBin_ok_cases (bins : List HistogramBin) (idx : JsNum)
    (b : List HistogramBin) (h : incrementBin bins idx = Except.ok b) :
    binsSum b = binsSum bins + 1 ∧ b.length = bins.length := by
  cases idx with
  | nan => exact absurd h (by simp [incrementBin])
  | posInf => exact absurd h (by simp [incrementBin])
  | negInf => exact absurd h (by simp [incrementBin])
  | fin q =>
    by_cases hc : q.den = 1 ∧ 0 ≤ q.num
    · simp only [incrementBin] at h
      rw [if_pos hc] at h
      rcases hg : bins.get? q.num.toNat with _ | bb
      · rw [hg] at h
        simp at h
      · rw [hg] at h
        have hb := Except.ok.inj h
        subst hb
        exact ⟨binsSum_set bins _ bb _ hg, by simp [List.length_set]⟩
    · simp only [incrementBin] at h
      rw [if_neg hc] at h
      cases h

/-- A bin increment at a nonnegative integer index inside bounds
succeeds. -/
theorem incrementBin_isOk (bins : List HistogramBin) (j : ℤ) (h0 : 0 ≤ j)
    (hlt : j.toNat < bins.length) :
    ∃ b, incrementBin bins (JsNum.fin (j : ℚ)) = Except.ok b := by
  have hden : ((j : ℚ)).den = 1 := Rat.den_intCast j
  have hnum : ((j : ℚ)).num = j := Rat.num_intCast j
  obtain ⟨bb, hg⟩ : ∃ bb, bins.get? ((j : ℚ)).num.toNat = some bb := by
    rw [hnum]
    exact ⟨_, List.get?_eq_get hlt⟩
  refine ⟨bins.set ((j : ℚ)).num.toNat ⟨bb.binLabel, bb.count + 1⟩, ?_⟩
  simp only [incrementBin]
  rw [if_pos ⟨hden, by rw [hnum]; exact h0⟩, hg]

theorem foldlM_binsSum
    (f : List HistogramBin → JsNum → Except String (List HistogramBin))
    (hf : ∀ bins v b, f bins v = Except.ok b → binsSum b = binsSum bins + 1) :
    ∀ (vs : List JsNum) (bins bins2 : List HistogramBin),
      List.foldlM f bins vs = Except.ok bins2 →
      binsSum bins2 = binsSum bins + vs.length := by
  intro vs
  induction vs with
  | nil =>
    intro bins bins2 h
    obtain rfl : bins = bins2 := Except.ok.inj h
    simp
  | cons v vs ih =>
    intro bins bins2 h
    rw [List.foldlM_cons] at h
    rcases hstep : f bins v with e | b
    · rw [hstep, except_bind_err] at h
      cases h
    · rw [hstep, except_bind_ok] at h
      have h1 := hf bins v b hstep
      have h2 := ih b bins2 h
      simp only [List.length_cons]
      omega

theorem foldlM_isOk
    (f : List HistogramBin → JsNum → Except String (List HistogramBin))
    (n : ℕ) :
    ∀ vs : List JsNum,
      (∀ v ∈ vs, ∀ bins2 : List HistogramBin, bins2.length = n →
        ∃ b, f bins2 v = Except.ok b ∧ b.length = n) →
      ∀ bins : List HistogramBin, bins.length = n →
        ∃ b, List.foldlM f bins vs = Except.ok b := by
  intro vs
  induction vs with
  | nil => intro _ bins _; exact ⟨bins, rfl⟩
  | cons v vs ih =>
    intro hstep bins hlen
    obtain ⟨b, hb, hblen⟩ := hstep v (List.mem_cons_self v vs) bins hlen
    obtain ⟨b2, hb2⟩ :=
      ih (fun w hw => hstep w (List.mem_cons_of_mem _ hw)) b hblen
    exact ⟨b2, by rw [List.foldlM_cons, hb, except_bind_ok]; exact hb2⟩

theorem foldl_jsMin2_fin (xs : List JsNum) :
    ∀ a : ℚ, (∀ v ∈ xs, ∃ q, v = JsNum.fin q) →
      ∃ m, xs.foldl JsNum.jsMin2 (JsNum.fin a) = JsNum.fin m ∧ m ≤ a ∧
        ∀ q, JsNum.fin q ∈ xs → m ≤ q := by
  induction xs with
  | nil => intro a _; exact ⟨a, rfl, le_refl a, by simp⟩
  | cons x xs ih =>
    intro a hall
    obtain ⟨qx, rfl⟩ := hall x (List.mem_cons_self x xs)
    obtain ⟨m, hm, hle, hmem⟩ :=
      ih (min a qx) (fun v hv => hall v (List.mem_cons_of_mem _ hv))
    refine ⟨m, ?_, le_trans hle (min_le_left _ _), ?_⟩
    · rw [List.foldl_cons]; exact hm
    · intro q hq
      rcases List.mem_cons.mp hq with heq | hq2
      · injection heq with hqq
        subst hqq
        exact le_trans hle (min_le_right _ _)
      · exact hmem q hq2

theorem foldl_jsMax2_fin (xs : List JsNum) :
    ∀ a : ℚ, (∀ v ∈ xs, ∃ q, v = JsNum.fin q) →
      ∃ mM, xs.foldl JsNum.jsMax2 (JsNum.fin a) = JsNum.fin mM ∧ a ≤ mM ∧
        ∀ q, JsNum.fin q ∈ xs → q ≤ mM := by
  induction xs with
  | nil => intro a _; exact ⟨a, rfl, le_refl a, by simp⟩
  | cons x xs ih =>
    intro a hall
    obtain ⟨qx, rfl⟩ := hall x (List.mem_cons_self x xs)
    obtain ⟨mM, hm, hle, hmem⟩ :=
      ih (max a qx) (fun v hv => hall v (List.mem_cons_of_mem _ hv))
    refine ⟨mM, ?_, le_trans (le_max_left _ _) hle, ?_⟩
    · rw [List.foldl_cons]; exact hm
    · intro q hq
      rcases List.mem_cons.mp hq with heq | hq2
      · injection heq with hqq
        subst hqq
        exact le_trans (le_max_right _ _) hle
      · exact hmem q hq2

theorem jsMinList_all_fin (x : JsNum) (xs : List JsNum)
    (hall : ∀ v ∈ x :: xs, ∃ q, v = JsNum.fin q) :
    ∃ m, jsMinList (x :: xs) = JsNum.fin m ∧
      ∀ q, JsNum.fin q ∈ x :: xs → m ≤ q := by
  obtain ⟨qx, rfl⟩ := hall x (List.mem_cons_self x xs)
  obtain ⟨m, hm, hle, hmem⟩ :=
    foldl_jsMin2_fin xs qx (fun v hv => hall v (List.mem_cons_of_mem _ hv))
  refine ⟨m, hm, ?_⟩
  intro q hq
  rcases List.mem_cons.mp hq with heq | hq2
  · injection heq with hqq
    subst hqq
    exact hle
  · exact hmem q hq2

theorem jsMaxList_all_fin (x : JsNum) (xs : List JsNum)
    (hall : ∀ v ∈ x :: xs, ∃ q, v = JsNum.fin q) :
    ∃ mM, jsMaxList (x :: xs) = JsNum.fin mM ∧
      ∀ q, JsNum.fin q ∈ x :: xs → q ≤ mM := by
  obtain ⟨qx, rfl⟩ := hall x (List.mem_cons_self x xs)
  obtain ⟨mM, hm, hle, hmem⟩ :=
    foldl_jsMax2_fin xs qx (fun v hv => hall v (List.mem_cons_of_mem _ hv))
  refine ⟨mM, hm, ?_⟩
  intro q hq
  rcases List.mem_cons.mp hq with heq | hq2
  · injection heq with hqq
    subst hqq
    exact hle
  · exact hmem q hq2

/-- One pass of the bin-assignment loop succeeds when the collected values
are finite: the floored, clamped index always lands inside the bin
array. -/
theorem histogramStep_ok (m M : ℚ) (B : ℤ) (hB : 1 ≤ B) (hmM : m < M)
    (q : ℚ) (hqm : m ≤ q) (_hqM : q ≤ M)
    (bins2 : List HistogramBin) (hlen : bins2.length = B.toNat) :
    ∃ b,
      incrementBin bins2
        (if JsNum.jsGe
              (JsNum.jsFloor (JsNum.jsDiv (JsNum.jsSub (JsNum.fin q) (JsNum.fin m))
                (JsNum.fin ((M - m) / (B : ℚ)))))
              (JsNum.fin (B : ℚ)) then
          JsNum.fin ((B - 1 : ℤ) : ℚ)
        else
          JsNum.jsFloor (JsNum.jsDiv (JsNum.jsSub (JsNum.fin q) (JsNum.fin m))
            (JsNum.fin ((M - m) / (B : ℚ))))) = Except.ok b ∧
      b.length = B.toNat := by
  have hBQ0 : (0 : ℚ) < (B : ℚ) := by exact_mod_cast (by omega : (0 : ℤ) < B)
  have hS : (0 : ℚ) < (M - m) / (B : ℚ) := div_pos (by linarith) hBQ0
  have hS0 : (M - m) / (B : ℚ) ≠ 0 := ne_of_gt hS
  have hidx : JsNum.jsFloor (JsNum.jsDiv (JsNum.jsSub (JsNum.fin q) (JsNum.fin m))
      (JsNum.fin ((M - m) / (B : ℚ)))) =
      JsNum.fin ((⌊(q - m) / ((M - m) / (B : ℚ))⌋ : ℤ) : ℚ) := by
    simp [JsNum.jsSub, JsNum.jsDiv, JsNum.jsFloor, hS0]
  rw [hidx]
  have hj0 : 0 ≤ ⌊(q - m) / ((M - m) / (B : ℚ))⌋ :=
    Int.floor_nonneg.mpr (div_nonneg (by linarith) hS.le)
  by_cases hcl : JsNum.jsGe (JsNum.fin ((⌊(q - m) / ((M - m) / (B : ℚ))⌋ : ℤ) : ℚ))
      (JsNum.fin (B : ℚ)) = true
  · rw [if_pos hcl]
    obtain ⟨b, hb⟩ := incrementBin_isOk bins2 (B - 1) (by omega)
      (by rw [hlen]; omega)
    exact ⟨b, hb, by rw [(incrementBin_ok_cases bins2 _ b hb).2, hlen]⟩
  · rw [if_neg hcl]
    have hjBlt : ⌊(q - m) / ((M - m) / (B : ℚ))⌋ < B := by
      simp only [JsNum.jsGe, JsNum.jsLe, decide_eq_true_eq] at hcl
      have : ((⌊(q - m) / ((M - m) / (B : ℚ))⌋ : ℤ) : ℚ) < (B : ℚ) := by
        exact lt_of_not_le hcl
      exact_mod_cast this
    obtain ⟨b, hb⟩ := incrementBin_isOk bins2 ⌊(q - m) / ((M - m) / (B : ℚ))⌋
      hj0 (by rw [hlen]; omega)
    exact ⟨b, hb, by rw [(incrementBin_ok_cases bins2 _ b hb).2, hlen]⟩

/-- Claim C2, amended: `computeStats` and `buildAdvisorSections` are total
(the advisor always returns its three sections), and `buildHistogramData`
returns a defined result whenever the bin count is positive and every
collected input value is finite; it is NOT total for arbitrary numeric
values — an infinite input value among the collected values makes the bin
assignment loop throw (see the counterexample). -/
theorem core_functions_total_amended :
    (∀ (anchor : Experiment) (allExperiments : List Experiment),
      (buildAdvisorSections anchor allExperiments).length = 3) ∧
    (∀ (experiments : List Experiment) (inputKey outputKey : String)
        (minOut maxOut : JsNum) (binCount : ℤ),
      1 ≤ binCount →
      (∀ v ∈ collectedValues experiments inputKey outputKey minOut maxOut,
        JsNum.isFiniteb v = true) →
      exceptIsOk (buildHistogramData experiments inputKey outputKey
        minOut maxOut binCount) = true) := by
  constructor
  · intro anchor allExperiments; rfl
  · intro exps inputKey outputKey minOut maxOut B hB hfin
    simp only [buildHistogramData]
    by_cases h1 : (matchingExperiments exps outputKey minOut maxOut).length = 0
    · rw [if_pos h1]; rfl
    rw [if_neg h1]
    by_cases h2 :
        (collectedValues exps inputKey outputKey minOut maxOut).isEmpty = true
    · rw [if_pos h2]; rfl
    rw [if_neg h2]
    obtain ⟨x, xs, hvv⟩ : ∃ x xs,
        collectedValues exps inputKey outputKey minOut maxOut = x :: xs := by
      rcases hc : collectedValues exps inputKey outputKey minOut maxOut with _ | ⟨x, xs⟩
      · rw [hc] at h2; simp at h2
      · exact ⟨x, xs, rfl⟩
    have hallfin : ∀ v ∈ x :: xs, ∃ q, v = JsNum.fin q := by
      intro v hv
      exact (isFiniteb_iff v).mp (hfin v (hvv ▸ hv))
    obtain ⟨m, hm, hmle⟩ := jsMinList_all_fin x xs hallfin
    obtain ⟨M, hM, hMge⟩ := jsMaxList_all_fin x xs hallfin
    rw [hvv, hm, hM]
    by_cases h3 : JsNum.jsEq (JsNum.fin m) (JsNum.fin M) = true
    · rw [if_pos h3]; rfl
    rw [if_neg h3]
    have hmM : m < M := by
      obtain ⟨q0, hq0⟩ := hallfin x (List.mem_cons_self x xs)
      have h1m := hmle q0 (hq0 ▸ List.mem_cons_self x xs)
      have h1M := hMge q0 (hq0 ▸ List.mem_cons_self x xs)
      have hne : m ≠ M := by
        intro he
        apply h3
        rw [he]
        simp [JsNum.jsEq]
      exact lt_of_le_of_ne (le_trans h1m h1M) hne
    have hsub : JsNum.jsSub (JsNum.fin M) (JsNum.fin m) = JsNum.fin (M - m) := rfl
    rw [hsub]
    have hBQ0 : ((B : ℚ)) ≠ 0 := by
      have : (0 : ℚ) < (B : ℚ) := by exact_mod_cast (by omega : (0 : ℤ) < B)
      exact ne_of_gt this
    have hdiv : JsNum.jsDiv (JsNum.fin (M - m)) (JsNum.fin (B : ℚ)) =
        JsNum.fin ((M - m) / (B : ℚ)) := by
      simp [JsNum.jsDiv, hBQ0]
    rw [hdiv, exceptIsOk_map]
    apply exceptIsOk_eq_true_of_ex
    refine foldlM_isOk _ B.toNat (x :: xs) ?_ _ (by simp)
    intro v hv bins2 hlen2
    obtain ⟨q, rfl⟩ := hallfin v hv
    exact histogramStep_ok m M B hB hmM q (hmle q hv) (hMge q hv) bins2 hlen2

/-- Counterexample to claim C2 as stated: with an infinite input value
among the collected values (a legal JavaScript number), the bin index for
that value evaluates to NaN and `rawBins[NaN].count += 1` throws, so
`buildHistogramData` is not total for every numeric value. -/
theorem buildHistogramData_throws_counterexample :
    exceptIsOk (buildHistogramData
      [{ id := "e1", inputs := [("x", JsNum.fin 1)],
         outputs := [("y", JsNum.fin 1)] },
       { id := "e2", inputs := [("x", JsNum.posInf)],
         outputs := [("y", JsNum.fin 2)] }]
      "x" "y" (JsNum.fin 0) (JsNum.fin 3) 6) = false := by
  with_unfolding_all decide

/-- Witness for C2 (amended) at a concrete dataset of two finite-valued
records and the default bin count. -/
theorem core_functions_total_amended_witness :
    (buildAdvisorSections
      { id := "a", inputs := [], outputs := [] }
      [{ id := "a", inputs := [], outputs := [] }]).length = 3 ∧
    exceptIsOk (buildHistogramData
      [{ id := "e1", inputs := [("x", JsNum.fin 1)],
         outputs := [("y", JsNum.fin 1)] },
       { id := "e2", inputs := [("x", JsNum.fin 2)],
         outputs := [("y", JsNum.fin 2)] }]
      "x" "y" (JsNum.fin 0) (JsNum.fin 3) 6) = true :=
  ⟨core_functions_total_amended.1 _ _,
   core_functions_total_amended.2 _ "x" "y" (JsNum.fin 0) (JsNum.fin 3) 6
     (by decide) (by with_unfolding_all decide)⟩

/-- Counterexample to claim C3 as stated: the histogram collects values
with `!Number.isNaN`, not `Number.isFinite`.  A matching record whose
input is Infinity is collected and counted, so the bin counts sum to 1
while the number of matching records with a FINITE input value is 0. -/
theorem histogram_sum_infinite_counterexample :
    buildHistogramData
        [{ id := "e1", inputs := [("x", JsNum.posInf)],
           outputs := [("y", JsNum.fin 1)] }]
        "x" "y" (JsNum.fin 0) (JsNum.fin 2) 6 =
      Except.ok { bins := [{ binLabel := "Infinity", count := 1 }],
                  matchingCount := 1 } ∧
    ((matchingExperiments
        [{ id := "e1", inputs := [("x", JsNum.posInf)],
           outputs := [("y", JsNum.fin 1)] }]
        "y" (JsNum.fin 0) (JsNum.fin 2)).countP
      fun e => (getProp e.inputs "x").elim false JsNum.isFiniteb) = 0 := by
  constructor
  · with_unfolding_all rfl
  · with_unfolding_all rfl

/-- Claim C3, amended: whenever `buildHistogramData` returns a result (it
can throw on infinite collected values), the bin counts sum to the number
of collected values — the matching records whose input value is present
and not NaN (`!Number.isNaN`, so infinite values are also collected,
unlike what "finite" suggests). -/
theorem histogram_sum_counts_amended :
    ∀ (experiments : List Experiment) (inputKey outputKey : String)
      (minOut maxOut : JsNum) (binCount : ℤ) (r : HistogramResult),
      buildHistogramData experiments inputKey outputKey minOut maxOut binCount =
        Except.ok r →
      binsSum r.bins =
        (collectedValues experiments inputKey outputKey minOut maxOut).length := by
  intro exps inputKey outputKey minOut maxOut B r h
  simp only [buildHistogramData] at h
  by_cases h1 : (matchingExperiments exps outputKey minOut maxOut).length = 0
  · rw [if_pos h1] at h
    obtain rfl : ({ bins := [], matchingCount := 0 } : HistogramResult) = r :=
      Except.ok.inj h
    have hm : matchingExperiments exps outputKey minOut maxOut = [] :=
      List.length_eq_zero.mp h1
    simp [binsSum_nil, collectedValues, hm]
  rw [if_neg h1] at h
  by_cases h2 :
      (collectedValues exps inputKey outputKey minOut maxOut).isEmpty = true
  · rw [if_pos h2] at h
    obtain rfl := Except.ok.inj h
    simp only [binsSum_nil]
    exact (List.length_eq_zero.mpr (List.isEmpty_iff.mp h2)).symm
  rw [if_neg h2] at h
  by_cases h3 : JsNum.jsEq
      (jsMinList (collectedValues exps inputKey outputKey minOut maxOut))
      (jsMaxList (collectedValues exps inputKey outputKey minOut maxOut)) = true
  · rw [if_pos h3] at h
    obtain rfl := Except.ok.inj h
    simp [binsSum_cons, binsSum_nil]
  rw [if_neg h3] at h
  obtain ⟨bins, hbins, rfl⟩ := except_map_ok _ _ _ h
  have hsum := foldlM_binsSum _
    (fun b2 v b hh => (incrementBin_ok_cases b2 _ b hh).1) _ _ _ hbins
  simpa [binsSum_map_zero] using hsum

/-- Witness for C3 (amended) at a concrete degenerate dataset: both
matching records share the input value 2, the single bin has count 2, and
two values were collected. -/
theorem histogram_sum_counts_amended_witness :
    binsSum ({ bins := [{ binLabel := "2.00", count := 2 }],
               matchingCount := 2 } : HistogramResult).bins =
      (collectedValues
        [{ id := "e1", inputs := [("x", JsNum.fin 2)],
           outputs := [("y", JsNum.fin 1)] },
         { id := "e2", inputs := [("x", JsNum.fin 2)],
           outputs := [("y", JsNum.fin 2)] }]
        "x" "y" (JsNum.fin 0) (JsNum.fin 3)).length :=
  histogram_sum_counts_amended _ "x" "y" (JsNum.fin 0) (JsNum.fin 3) 6 _
    (by with_unfolding_all rfl)

/-!  Helpers for the degenerate-histogram claim C6. -/

theorem jsMin2_self (v : JsNum) : JsNum.jsMin2 v v = v := by
  cases v <;> simp [JsNum.jsMin2]

theorem jsMax2_self (v : JsNum) : JsNum.jsMax2 v v = v := by
  cases v <;> simp [JsNum.jsMax2]

theorem foldl_jsMin2_const (v : JsNum) (xs : List JsNum)
    (h : ∀ w ∈ xs, w = v) : xs.foldl JsNum.jsMin2 v = v := by
  induction xs with
  | nil => rfl
  | cons x xs ih =>
    rw [List.foldl_cons, h x (List.mem_cons_self x xs), jsMin2_self]
    exact ih fun w hw => h w (List.mem_cons_of_mem _ hw)

theorem foldl_jsMax2_const (v : JsNum) (xs : List JsNum)
    (h : ∀ w ∈ xs, w = v) : xs.foldl JsNum.jsMax2 v = v := by
  induction xs with
  | nil => rfl
  | cons x xs ih =>
    rw [List.foldl_cons, h x (List.mem_cons_self x xs), jsMax2_self]
    exact ih fun w hw => h w (List.mem_cons_of_mem _ hw)

theorem jsEq_self_of_not_nan (v : JsNum) (h : JsNum.isNaNb v = false) :
    JsNum.jsEq v v = true := by
  cases v <;> simp_all [JsNum.jsEq, JsNum.isNaNb]

/-- Values collected by the histogram are never NaN (the collection filter
tests `!Number.isNaN`). -/
theorem collectedValues_not_nan (experiments : List Experiment)
    (inputKey outputKey : String) (minOut maxOut : JsNum) :
    ∀ w ∈ collectedValues experiments inputKey outputKey minOut maxOut,
      JsNum.isNaNb w = false := by
  intro w hw
  unfold collectedValues at hw
  rw [List.mem_filterMap] at hw
  obtain ⟨e, _, hfe⟩ := hw
  rcases hg : getProp e.inputs inputKey with _ | v
  · rw [hg] at hfe
    cases hfe
  · rw [hg] at hfe
    dsimp only at hfe
    by_cases hn : JsNum.isNaNb v = true
    · rw [if_pos hn] at hfe
      cases hfe
    · rw [if_neg hn] at hfe
      obtain rfl := Option.some.inj hfe
      exact eq_false_of_ne_true hn

/-- Claim C6: a range excluding all records yields `bins = []` with
`matchingCount = 0`; and when all collected input values are identical,
exactly one bin is returned, labeled with that value to two decimals and
counting the collected values. -/
theorem histogram_empty_range_and_degenerate :
    (∀ (experiments : List Experiment) (inputKey outputKey : String)
        (minOut maxOut : JsNum) (binCount : ℤ),
      matchingExperiments experiments outputKey minOut maxOut = [] →
      buildHistogramData experiments inputKey outputKey minOut maxOut binCount =
        Except.ok { bins := [], matchingCount := 0 }) ∧
    (∀ (experiments : List Experiment) (inputKey outputKey : String)
        (minOut maxOut : JsNum) (binCount : ℤ) (v : JsNum),
      collectedValues experiments inputKey outputKey minOut maxOut ≠ [] →
      (∀ w ∈ collectedValues experiments inputKey outputKey minOut maxOut,
        w = v) →
      buildHistogramData experiments inputKey outputKey minOut maxOut binCount =
        Except.ok
          { bins := [{ binLabel := jsToFixed v 2,
                       count := (collectedValues experiments inputKey outputKey
                         minOut maxOut).length }],
            matchingCount :=
              (matchingExperiments experiments outputKey minOut maxOut).length }) := by
  constructor
  · intro exps inputKey outputKey minOut maxOut B hempty
    simp only [buildHistogramData]
    rw [if_pos (by rw [hempty]; rfl)]
  · intro exps inputKey outputKey minOut maxOut B v hne hall
    simp only [buildHistogramData]
    have hm0 : ¬((matchingExperiments exps outputKey minOut maxOut).length = 0) := by
      intro hh
      apply hne
      unfold collectedValues
      rw [List.length_eq_zero.mp hh]
      rfl
    rw [if_neg hm0]
    have hie : ¬((collectedValues exps inputKey outputKey minOut maxOut).isEmpty
        = true) := by
      intro hh
      exact hne (List.isEmpty_iff.mp hh)
    rw [if_neg hie]
    obtain ⟨x, xs, hvv⟩ : ∃ x xs,
        collectedValues exps inputKey outputKey minOut maxOut = x :: xs := by
      rcases hc : collectedValues exps inputKey outputKey minOut maxOut
        with _ | ⟨x, xs⟩
      · exact absurd hc hne
      · exact ⟨x, xs, rfl⟩
    have hxv : x = v := hall x (hvv ▸ List.mem_cons_self x xs)
    have hxsv : ∀ w ∈ xs, w = v := fun w hw =>
      hall w (hvv ▸ List.mem_cons_of_mem _ hw)
    have hmin : jsMinList (collectedValues exps inputKey outputKey minOut maxOut)
        = v := by
      rw [hvv]
      show xs.foldl JsNum.jsMin2 x = v
      rw [hxv]
      exact foldl_jsMin2_const v xs hxsv
    have hmax : jsMaxList (collectedValues exps inputKey outputKey minOut maxOut)
        = v := by
      rw [hvv]
      show xs.foldl JsNum.jsMax2 x = v
      rw [hxv]
      exact foldl_jsMax2_const v xs hxsv
    have hnan : JsNum.isNaNb v = false := by
      apply collectedValues_not_nan exps inputKey outputKey minOut maxOut
      rw [hvv]
      exact hxv ▸ List.mem_cons_self x xs
    rw [hmin, hmax, if_pos (jsEq_self_of_not_nan v hnan)]

/-- Witness for C6 at two concrete datasets: one where the range excludes
the only record, one where both matching records share the input value
2. -/
theorem histogram_empty_range_and_degenerate_witness :
    buildHistogramData
        [{ id := "e1", inputs := [("x", JsNum.fin 1)],
           outputs := [("y", JsNum.fin 10)] }]
        "x" "y" (JsNum.fin 50) (JsNum.fin 60) 6 =
      Except.ok { bins := [], matchingCount := 0 } ∧
    buildHistogramData
        [{ id := "e1", inputs := [("x", JsNum.fin 2)],
           outputs := [("y", JsNum.fin 1)] },
         { id := "e2", inputs := [("x", JsNum.fin 2)],
           outputs := [("y", JsNum.fin 2)] }]
        "x" "y" (JsNum.fin 0) (JsNum.fin 3) 6 =
      Except.ok
        { bins := [{ binLabel := jsToFixed (JsNum.fin 2) 2,
                     count := (collectedValues
                       [{ id := "e1", inputs := [("x", JsNum.fin 2)],
                          outputs := [("y", JsNum.fin 1)] },
                        { id := "e2", inputs := [("x", JsNum.fin 2)],
                          outputs := [("y", JsNum.fin 2)] }]
                       "x" "y" (JsNum.fin 0) (JsNum.fin 3)).length }],
          matchingCount :=
            (matchingExperiments
              [{ id := "e1", inputs := [("x", JsNum.fin 2)],
                 outputs := [("y", JsNum.fin 1)] },
               { id := "e2", inputs := [("x", JsNum.fin 2)],
                 outputs := [("y", JsNum.fin 2)] }]
              "y" (JsNum.fin 0) (JsNum.fin 3)).length } :=
  ⟨histogram_empty_range_and_degenerate.1 _ "x" "y" (JsNum.fin 50) (JsNum.fin 60) 6
      (by with_unfolding_all decide),
   histogram_empty_range_and_degenerate.2 _ "x" "y" (JsNum.fin 0) (JsNum.fin 3) 6
      (JsNum.fin 2) (by with_unfolding_all decide) (by with_unfolding_all decide)⟩

/-!  Helpers for the response-parser claims C9 and C10. -/

theorem blockBullets_ne_nil (body : List (List Char)) :
    ∀ b ∈ blockBullets body, b ≠ [] := by
  suffices h : ∀ acc : List (List Char), (∀ b ∈ acc, b ≠ ([] : List Char)) →
      ∀ b ∈ body.foldl
        (fun bs line =>
          if line.isEmpty then bs
          else
            let cleaned := cleanBulletLine line
            if cleaned.isEmpty then bs else bs ++ [cleaned]) acc, b ≠ [] by
    exact h [] (by simp)
  induction body with
  | nil =>
    intro acc hacc
    simpa using hacc
  | cons line rest ih =>
    intro acc hacc
    rw [List.foldl_cons]
    apply ih
    dsimp only
    split
    · exact hacc
    · split
      · exact hacc
      · next hcl =>
          intro b hb
          rcases List.mem_append.mp hb with h1 | h1
          · exact hacc b h1
          · rw [List.mem_singleton] at h1
            subst h1
            intro hnil
            rw [hnil] at hcl
            simp at hcl

theorem blockBullets_empty_of_clean (body : List (List Char))
    (h : ∀ line ∈ body, cleanBulletLine line = []) : blockBullets body = [] := by
  suffices haux : ∀ acc : List (List Char),
      body.foldl
        (fun bs line =>
          if line.isEmpty then bs
          else
            let cleaned := cleanBulletLine line
            if cleaned.isEmpty then bs else bs ++ [cleaned]) acc = acc by
    exact haux []
  induction body with
  | nil => intro acc; rfl
  | cons line rest ih =>
    intro acc
    rw [List.foldl_cons]
    have hline := h line (List.mem_cons_self line rest)
    have hrest := ih fun l hl => h l (List.mem_cons_of_mem _ hl)
    dsimp only
    split
    · exact hrest acc
    · rw [if_pos (by rw [hline]; rfl)]
      exact hrest acc

/-- Structural soundness of one block of the parser: the title line is
nonempty and no produced bullet is the empty character list. -/
theorem processBlock_sound (raw : List Char) (p : List Char × List (List Char))
    (h : processBlock raw = some p) :
    p.1 ≠ [] ∧ ∀ l ∈ p.2, l ≠ [] := by
  unfold processBlock at h
  split at h
  · cases h
  · next f b heq =>
      split at h
      · cases h
      · next hfirst =>
          dsimp only at h
          obtain rfl := Option.some.inj h
          refine ⟨?_, ?_⟩
          · dsimp only
            intro hnil
            apply hfirst
            rw [hnil]
            rfl
          · dsimp only
            intro l hl
            by_cases hcond : ((blockBullets b).isEmpty &&
                !(jsTrimChars (List.intercalate [' '] b)).isEmpty) = true
            · rw [if_pos hcond] at hl
              rw [List.mem_singleton] at hl
              subst hl
              rw [Bool.and_eq_true] at hcond
              intro hnil
              rw [hnil] at hcond
              simp at hcond
            · rw [if_neg hcond] at hl
              exact blockBullets_ne_nil b l hl

/-- Claim C10: every parsed section has a nonempty title and no empty
bullet strings, while the bullets list itself can be empty — witnessed by
a lone header block, whose section has zero bullets (unlike the advisor
sections, which get fallbacks). -/
theorem parseLlmSections_titles_and_bullets :
    (∀ text : String, ∀ s ∈ parseLlmSections text,
      s.title ≠ "" ∧ ∀ b ∈ s.bullets, b ≠ "") ∧
    parseLlmSections "### A" = [{ title := "A", bullets := [] }] := by
  constructor
  · intro text s hs
    simp only [parseLlmSections] at hs
    split at hs
    · cases hs
    · rw [List.mem_map] at hs
      obtain ⟨p, hp, rfl⟩ := hs
      rw [List.mem_filterMap] at hp
      obtain ⟨raw, _, hpb⟩ := hp
      have hsound := processBlock_sound raw p hpb
      constructor
      · intro hcon
        exact hsound.1 (by simpa using congrArg String.data hcon)
      · intro b hb
        rw [List.mem_map] at hb
        obtain ⟨l, hl, rfl⟩ := hb
        intro hcon
        exact hsound.2 l hl (by simpa using congrArg String.data hcon)
  · decide

/-- Witness for C10 at the single-section input `### A\nx` (applying the
universal part at a concrete section). -/
theorem parseLlmSections_titles_and_bullets_witness :
    ({ title := "A", bullets := ["x"] } : LlmSection).title ≠ "" ∧
      ∀ b ∈ ({ title := "A", bullets := ["x"] } : LlmSection).bullets, b ≠ "" :=
  parseLlmSections_titles_and_bullets.1 "### A\nx"
    { title := "A", bullets := ["x"] } (by decide)

/-- Counterexample to claim C9 as stated: a block whose body holds two
plain (unnumbered) prose lines yields one bullet per line, not a single
bullet with the whole body verbatim. -/
theorem parseLlmSections_plain_body_counterexample :
    parseLlmSections "### A\nfoo\nbar" =
      [{ title := "A", bullets := ["foo", "bar"] }] ∧
    (parseLlmSections "### A\nfoo\nbar").map (fun s => s.bullets.length) ≠ [1] := by
  constructor
  · decide
  · decide

/-- Claim C9, amended: the empty input parses to no sections and the
two-header example parses as specified; the single-fallback-bullet path
fires only when every body line strips to nothing (blank or a bare list
marker) while the body text joined with spaces is nonempty — then exactly
one bullet holding that joined, trimmed body is produced.  A body with
ordinary prose lines instead yields one bullet per nonempty line. -/
theorem parseLlmSections_examples_amended :
    parseLlmSections "" = [] ∧
    parseLlmSections "### A\n1. x\n2. y\n### B\nplain prose" =
      [{ title := "A", bullets := ["x", "y"] },
       { title := "B", bullets := ["plain prose"] }] ∧
    (∀ (raw first : List Char) (body : List (List Char)),
      (raw.splitOn '\n').map jsTrimChars = first :: body →
      first ≠ [] →
      (∀ line ∈ body, cleanBulletLine line = []) →
      jsTrimChars (List.intercalate [' '] body) ≠ [] →
      processBlock raw =
        some (first, [jsTrimChars (List.intercalate [' '] body)])) := by
  refine ⟨rfl, by decide, ?_⟩
  intro raw first body hsplit hfirst hclean hjoin
  unfold processBlock
  rw [hsplit]
  split
  · next heq => exact absurd heq (by simp)
  · next f b heq =>
      obtain ⟨rfl, rfl⟩ : first = f ∧ body = b := by
        injection heq with h1 h2
        exact ⟨h1, h2⟩
      rw [if_neg (by simpa [List.isEmpty_iff] using hfirst)]
      dsimp only
      rw [blockBullets_empty_of_clean body hclean]
      rw [if_pos (by simpa [List.isEmpty_iff] using hjoin)]

/-- Witness for C9 (amended): the fallback part applied to the concrete
block `T\n1.`, whose single body line is a bare list marker. -/
theorem parseLlmSections_examples_amended_witness :
    processBlock ("T\n1.".data) =
      some (['T'], [jsTrimChars (List.intercalate [' '] [['1', '.']])]) :=
  parseLlmSections_examples_amended.2.2 ("T\n1.".data) ['T'] [['1', '.']]
    (by decide) (by decide) (by decide) (by decide)
